import Mathlib

/-
Verification development for the search query builder
(src/vs/workbench/parts/search/common/queryBuilder.ts).

The TypeScript source is shallowly embedded below: pure functions become
Lean functions, JS exceptions become the PResult type, JS objects used as
string-keyed boolean maps (glob.IExpression) become association lists with
JS object-update semantics, and the external collaborators (workspace
service, configuration service, environment service) become fields of an
explicit Env record that is passed to every operation.

Utility modules imported by the source (vs/base/common/paths, resources,
labels, glob, arrays, collections, objects) are not part of this
repository snapshot; where their behaviour decides something they are
modelled from the specification text, and each such definition carries a
doc comment saying so.
-/

/-- Result type for operations that may throw a JS exception. -/
inductive PResult (α : Type) where
  | ok (val : α)
  | err (msg : String)
deriving DecidableEq, Repr

/-- glob.IExpression: a JS object mapping glob pattern strings to booleans.
Modelled as an association list in insertion order; exprSet reproduces the
JS object-update semantics (overwrite in place, or append a new key). -/
abbrev IExpression := List (String × Bool)

/-- JS object key update: overwrite the value in place if the key is
present, otherwise append the new binding at the end. -/
def exprSet (e : IExpression) (k : String) (v : Bool) : IExpression :=
  if e.any (fun kv => kv.1 = k) then
    e.map (fun kv => if kv.1 = k then (k, v) else kv)
  else
    e ++ [(k, v)]

/-- Key membership in an IExpression (JS: key in object). -/
def exprHasKey (e : IExpression) (k : String) : Bool :=
  e.any (fun kv => kv.1 = k)

/-- objects.mixin(dest, src): copy every enumerable key of src into dest,
overwriting. Modelled from the spec: union of keys, right-hand value wins. -/
def mixin (dest src : IExpression) : IExpression :=
  src.foldl (fun d kv => exprSet d kv.1 kv.2) dest

/-- Path separator characters recognized by the source: forward slash and
backslash. -/
def isSepChar (c : Char) : Bool :=
  c = '/' || c = '\\'

/-- The glob metacharacters from the regex in splitGlobFromPath. -/
def isGlobChar (c : Char) : Bool :=
  c = '*' || c = '{' || c = '}' || c = '(' || c = ')' || c = '[' || c = ']' || c = '?'

/-- Modelled from the spec: paths.isAbsolute from vs/base/common/paths
(not in this snapshot). A path is absolute when it starts with a slash or
backslash, or with a drive letter followed by a colon and a separator. -/
def isAbsolutePath (s : String) : Bool :=
  match s.data with
  | [] => false
  | c :: ':' :: d :: _ => c = '/' || c = '\\' || (c.isAlpha && isSepChar d)
  | c :: _ => c = '/' || c = '\\'

/-- Split a character list at every occurrence of the separator, keeping
empty pieces, with the current piece accumulated in reverse. -/
def splitAccum (sep : Char) : List Char → List Char → List String
  | [], cur => [String.mk cur.reverse]
  | x :: xs, cur =>
    if x = sep then String.mk cur.reverse :: splitAccum sep xs []
    else splitAccum sep xs (x :: cur)

/-- Split a character list on a separator character. -/
def splitOnChar (sep : Char) (l : List Char) : List String :=
  splitAccum sep l []

/-- Join path components with forward slashes. -/
def intercalateSlash : List String → List Char
  | [] => []
  | [s] => s.data
  | s :: rest => s.data ++ '/' :: intercalateSlash rest

/-- Modelled from the spec: the segment-resolution step of paths.normalize.
Resolves single-dot and double-dot components over a component list that is
accumulated in reverse. -/
def normSegs : List String → List String → List String
  | acc, [] => acc.reverse
  | acc, s :: rest =>
    if s = "" || s = "." then normSegs acc rest
    else if s = ".." then
      match acc with
      | _ :: acc2 => normSegs acc2 rest
      | [] => normSegs [] rest
    else normSegs (s :: acc) rest

/-- Modelled from the spec: paths.normalize (normalize dot and dotdot
segments, unify separators to forward slashes). -/
def normalizePath (p : String) : String :=
  let q := p.data.map (fun c => if c = '\\' then '/' else c)
  let comps := normSegs [] (splitOnChar '/' q)
  String.mk ((if q.head? = some '/' then ['/'] else []) ++ intercalateSlash comps)

/-- Modelled from the spec: paths.join(a, b) - concatenate and normalize. -/
def pathsJoin (a b : String) : String :=
  normalizePath (a ++ "/" ++ b)

/-- URI model: only the path component matters for this core (all URIs in
play are file URIs). Modelled from the spec in so far as uri construction
lives outside this snapshot. -/
structure Uri where
  path : String
deriving DecidableEq, Repr

/-- Modelled from the spec: uri.file - a file URI whose path component is
the given filesystem path (given a leading slash when missing). -/
def Uri.file (p : String) : Uri :=
  { path := match p.data with
            | '/' :: _ => p
            | _ => "/" ++ p }

/-- The canonical string form of a file URI, used as the deduplication key
(searchPath.toString() in the source). -/
def Uri.toString (u : Uri) : String :=
  "file://" ++ u.path

/-- The filesystem path of a file URI (uri.fsPath, posix model). -/
def Uri.fsPath (u : Uri) : String :=
  u.path

/-- Modelled from the spec: resources.joinPath - join a path onto the path
component of a URI. -/
def joinPath (u : Uri) (p : String) : Uri :=
  { path := normalizePath (u.path ++ "/" ++ p) }

/-- Modelled from the spec: untildify from vs/base/common/labels - replace
a leading tilde (alone or followed by a separator) with the home path. -/
def untildify (s home : String) : String :=
  if home = "" then s
  else
    match s.data with
    | ['~'] => home
    | '~' :: c :: rest =>
      if c = '/' || c = '\\' then home ++ String.mk (c :: rest) else s
    | _ => s

/-- Modelled from the spec: glob.splitGlobAware - split on the given
character except inside a brace group, accumulating the current segment in
reverse. -/
def splitGlobAwareGo : List Char → Bool → List Char → List String
  | [], _, cur => [String.mk cur.reverse]
  | c :: rest, inBraces, cur =>
    if c = ',' && !inBraces then
      String.mk cur.reverse :: splitGlobAwareGo rest inBraces []
    else if c = '{' then splitGlobAwareGo rest true (c :: cur)
    else if c = '}' then splitGlobAwareGo rest false (c :: cur)
    else splitGlobAwareGo rest inBraces (c :: cur)

/-- Modelled from the spec: glob.splitGlobAware for the comma separator.
An empty or absent pattern yields no segments. -/
def splitGlobAware (p : String) : List String :=
  if p = "" then [] else splitGlobAwareGo p.data false []

/-- Whitespace trim on both ends (String.trim in the source pipeline). -/
def trimChars (s : String) : String :=
  String.mk (((s.data.dropWhile Char.isWhitespace).reverse.dropWhile Char.isWhitespace).reverse)

/-- splitGlobPattern from the source: split glob-aware on commas, trim each
segment and drop the empty ones. An absent pattern maps to no segments. -/
def splitGlobPattern (p : Option String) : List String :=
  match p with
  | none => []
  | some s => ((splitGlobAware s).map trimChars).filter (fun t => t ≠ "")

/-- Single left-to-right pass replacing each occurrence of the five
characters star star slash star star by star star, as the global regex
replace in expandGlobalGlob does (matched text is not rescanned). -/
def replaceStarStar : List Char → List Char
  | '*' :: '*' :: '/' :: '*' :: '*' :: rest => '*' :: '*' :: replaceStarStar rest
  | c :: rest => c :: replaceStarStar rest
  | [] => []

/-- String wrapper for replaceStarStar. -/
def replaceStarStarStr (s : String) : String :=
  String.mk (replaceStarStar s.data)

/-- expandGlobalGlob from the source: wrap the pattern in the two
multi-root-safe forms, then collapse accidental doubled globstars. -/
def expandGlobalGlob (pattern : String) : List String :=
  [replaceStarStarStr ("**/" ++ pattern ++ "/**"),
   replaceStarStarStr ("**/" ++ pattern)]

/-- Index of the first glob metacharacter, as searchPath.match(globRegex)
computes it in splitGlobFromPath. -/
def findGlobIdx : List Char → Option Nat
  | [] => none
  | c :: rest => if isGlobChar c then some 0 else (findGlobIdx rest).map (· + 1)

/-- The separator class of the last-slash regex in splitGlobFromPath. The
source regex character class contains slash, pipe and backslash (the pipe
is literal inside a character class). -/
def isSepOrPipe (c : Char) : Bool :=
  c = '/' || c = '|' || c = '\\'

/-- Leftmost match index of the source regex: a separator-class character
followed only by non-slash non-backslash characters up to the end. -/
def regexSepMatchIdx : List Char → Option Nat
  | [] => none
  | c :: rest =>
    if isSepOrPipe c && rest.all (fun d => !isSepChar d) then some 0
    else (regexSepMatchIdx rest).map (· + 1)

/-- splitGlobFromPath from the source: find the first glob metacharacter;
if found, find the last separator before it; the part strictly before that
separator is the path portion (given a trailing slash when it contains no
separator) and everything after the separator is the glob portion. -/
def splitGlobFromPath (searchPath : String) : String × Option String :=
  match findGlobIdx searchPath.data with
  | some globCharIdx =>
    match regexSepMatchIdx (searchPath.data.take globCharIdx) with
    | some lastSlashIdx =>
      let pp := searchPath.data.take lastSlashIdx
      let pathPortion := if pp.any isSepChar then pp else pp ++ ['/']
      (String.mk pathPortion, some (String.mk (searchPath.data.drop (lastSlashIdx + 1))))
    | none => (searchPath, none)
  | none => (searchPath, none)

/-- patternListToIExpression from the source: absent for an empty list,
otherwise every pattern mapped to true. -/
def patternListToIExpression (patterns : List String) : Option IExpression :=
  if patterns.isEmpty then none
  else some (patterns.foldl (fun g cur => exprSet g cur true) [])

/-- The workbench state enumeration of the workspace service. -/
inductive WorkbenchState where
  | empty
  | folder
  | workspace
deriving DecidableEq, Repr

/-- One root folder of the workspace, with its name and location. -/
structure WorkspaceFolder where
  name : String
  uri : Uri
deriving DecidableEq, Repr

/-- The per-folder configuration snapshot provided by the configuration
collaborator (an external interface in the spec); excludes is the result
of getExcludes on that configuration. -/
structure SearchConfig where
  useRipgrep : Bool := true
  useIgnoreFiles : Bool := true
  useGlobalIgnoreFiles : Bool := false
  followSymlinks : Bool := true
  filesEncoding : Option String := none
  excludes : Option IExpression := none
deriving Repr

/-- The ambient collaborators of QueryBuilder, passed explicitly: the
workspace snapshot, the home directory, the configuration lookup, and the
downstream path-inclusion test used only for extra file filtering. -/
structure Env where
  state : WorkbenchState
  folders : List WorkspaceFolder
  userHome : String := "/home/user"
  config : Option Uri → SearchConfig := fun _ => {}
  pathIncluded : Option IExpression → Option IExpression → String → Bool := fun _ _ _ => true

/-- ISearchPathPattern: one resolved anchor location plus its glob tail. -/
structure SearchPathPattern where
  searchPath : Uri
  pattern : Option String
deriving DecidableEq, Repr

/-- ISearchPathsResult: joint output of parseSearchPaths; either field is
absent when its list or expression would be empty. -/
structure SearchPathsResult where
  searchPaths : Option (List SearchPathPattern) := none
  pattern : Option IExpression := none
deriving DecidableEq, Repr

/-- The isSearchPath classifier from parseSearchPaths: absolute path, or a
dot or dotdot prefix followed by a separator. -/
def isSearchPath (segment : String) : Bool :=
  isAbsolutePath segment ||
    (match segment.data with
     | '.' :: '.' :: c :: _ => isSepChar c
     | '.' :: c :: _ => isSepChar c
     | _ => false)

/-- Attempt of the relative search path regex at the head of the list: a
dot, a separator, then a nonempty run of non-separator characters naming
the root, then optionally a separator and at least one further character
giving the remainder (greedy to the end of the string). -/
def relMatchAt : List Char → Option (String × Option String)
  | '.' :: c :: rest =>
    if isSepChar c then
      let name := rest.takeWhile (fun d => !isSepChar d)
      if name.isEmpty then none
      else
        match rest.drop name.length with
        | [] => some (String.mk name, none)
        | [_] => some (String.mk name, none)
        | after => some (String.mk name, some (String.mk after))
    else none
  | _ => none

/-- Leftmost-match scan for the unanchored relative search path regex. -/
def relMatchScan : List Char → Option (String × Option String)
  | [] => none
  | c :: rest =>
    match relMatchAt (c :: rest) with
    | some r => some r
    | none => relMatchScan rest

/-- The unanchored regex match of expandAbsoluteSearchPaths applied to a
search path string. -/
def relativeSearchPathMatch (s : String) : Option (String × Option String) :=
  relMatchScan s.data

/-- expandAbsoluteSearchPaths from the source: absolute paths resolve to
one normalized location in any mode; in single-folder mode the path is
joined onto the sole root; the bare dot-slash contributes nothing in
multi-root mode; otherwise the unanchored relative regex looks up a root
folder by name, throwing when the name matches no folder, and a
non-matching path is silently ignored. -/
def expandAbsoluteSearchPaths (env : Env) (searchPath : String) : PResult (List Uri) :=
  if isAbsolutePath searchPath then
    .ok [Uri.file (normalizePath searchPath)]
  else if env.state = WorkbenchState.folder then
    match env.folders with
    | f :: _ => .ok [joinPath f.uri searchPath]
    | [] => .err "TypeError: no folders in workspace"
  else if searchPath = "./" then
    .ok []
  else
    match relativeSearchPathMatch searchPath with
    | some (searchPathRoot, remainder) =>
      let matchingRoots := env.folders.filter (fun f => f.name = searchPathRoot)
      if matchingRoots.isEmpty then
        .err ("No folder in workspace with name: " ++ searchPathRoot)
      else
        .ok (matchingRoots.map (fun root =>
          match remainder with
          | some rem => joinPath root.uri rem
          | none => root.uri))
    | none => .ok []

/-- arrays.uniqueFilter with a seen-set accumulator: keep an element when
its key has not been seen before. -/
def uniqueGo {α : Type} (key : α → String) (seen : List String) : List α → List α
  | [] => []
  | x :: xs =>
    if key x ∈ seen then uniqueGo key seen xs
    else x :: uniqueGo key (key x :: seen) xs

/-- First-occurrence deduplication by string key (arrays.uniqueFilter). -/
def uniqueByKey {α : Type} (key : α → String) (l : List α) : List α :=
  uniqueGo key [] l

/-- The deduplication key of a search path pattern: the canonical string
form of its location. -/
def searchPathKey (p : SearchPathPattern) : String :=
  p.searchPath.toString

/-- One anchor segment expanded: split off the glob tail, expand the path
portion, and pair each resulting location with the tail. -/
def expandOneSearchPath (env : Env) (searchPath : String) : PResult (List SearchPathPattern) :=
  let parts := splitGlobFromPath searchPath
  match expandAbsoluteSearchPaths env parts.1 with
  | .ok pathPortions =>
    .ok (pathPortions.map (fun sp => { searchPath := sp, pattern := parts.2 }))
  | .err e => .err e

/-- The flattened expansion of all anchor segments in order, before
deduplication; the first thrown error aborts the whole computation. -/
def expandSearchPathPatternsRaw (env : Env) : List String → PResult (List SearchPathPattern)
  | [] => .ok []
  | sp :: rest =>
    match expandOneSearchPath env sp with
    | .ok l =>
      match expandSearchPathPatternsRaw env rest with
      | .ok ls => .ok (l ++ ls)
      | .err e => .err e
    | .err e => .err e

/-- expandSearchPathPatterns from the source: no workspace or no segments
yields nothing; otherwise expand every segment and deduplicate by the
canonical string form of the location, first occurrence winning. -/
def expandSearchPathPatterns (env : Env) (searchPaths : List String) : PResult (List SearchPathPattern) :=
  if env.state = WorkbenchState.empty || searchPaths.isEmpty then .ok []
  else
    match expandSearchPathPatternsRaw env searchPaths with
    | .ok flat => .ok (uniqueByKey searchPathKey flat)
    | .err e => .err e

/-- The leading-dot rewrite applied to glob segments before expansion. -/
def convertDotSegment (p : String) : String :=
  match p.data with
  | '.' :: _ => "*" ++ p
  | _ => p

/-- parseSearchPaths from the source: split the raw pattern, untildify,
partition into anchors and glob segments, expand both sides, and record
each side only when nonempty. -/
def parseSearchPaths (env : Env) (pattern : Option String) : PResult SearchPathsResult :=
  let segments := (splitGlobPattern pattern).map (fun seg => untildify seg env.userHome)
  let searchPathSegments := segments.filter (fun s => isSearchPath s)
  let exprSegments :=
    ((segments.filter (fun s => !isSearchPath s)).map
      (fun p => expandGlobalGlob (convertDotSegment p))).flatten
  match expandSearchPathPatterns env searchPathSegments with
  | .ok searchPaths =>
    let r0 : SearchPathsResult := {}
    let r1 := if searchPaths.isEmpty then r0 else { r0 with searchPaths := some searchPaths }
    let r2 :=
      match patternListToIExpression exprSegments with
      | some includePattern => { r1 with pattern := some includePattern }
      | none => r1
    .ok r2
  | .err e => .err e

/-- The literal exclude key contributed by one resolved search path in
parseExcludePattern: the location joined with the glob tail when the tail
is a nonempty string, the bare location otherwise. -/
def searchPathExcludeKey (sp : SearchPathPattern) : String :=
  match sp.pattern with
  | some p => if p = "" then sp.searchPath.fsPath else pathsJoin sp.searchPath.fsPath p
  | none => sp.searchPath.fsPath

/-- parseExcludePattern from the source: run parseSearchPaths, mix the
glob expression into an empty expression, add one literal key per resolved
search path, and return absent when the merged expression has no keys. -/
def parseExcludePattern (env : Env) (pattern : Option String) : PResult (Option IExpression) :=
  match parseSearchPaths env pattern with
  | .ok result =>
    let e0 : IExpression := []
    let e1 :=
      match result.pattern with
      | some p => mixin e0 p
      | none => e0
    let e2 :=
      match result.searchPaths with
      | some sps => sps.foldl (fun e sp => exprSet e (searchPathExcludeKey sp) true) e1
      | none => e1
    .ok (if e2.isEmpty then none else some e2)
  | .err e => .err e

/-- getAbsoluteIExpression from the source: keep only keys with a truthy
value that are not already absolute, rebased under the root. -/
def getAbsoluteIExpression (expr : IExpression) (root : String) : IExpression :=
  expr.foldl
    (fun absExpr kv =>
      if kv.2 && !isAbsolutePath kv.1 then exprSet absExpr (pathsJoin root kv.1) kv.2
      else absExpr)
    []

/-- IFolderQuery: one per-folder query descriptor. -/
structure FolderQuery where
  folder : Uri
  includePattern : Option IExpression := none
  excludePattern : Option IExpression := none
  fileEncoding : Option String := none
  disregardIgnoreFiles : Option Bool := none
  disregardGlobalIgnoreFiles : Option Bool := none
  ignoreSymlinks : Option Bool := none
deriving DecidableEq, Repr

/-- mergeExcludesFromFolderQueries from the source: mix the rebased
exclude pattern of every folder query into one expression, absent when
empty. -/
def mergeExcludesFromFolderQueries (fqs : List FolderQuery) : Option IExpression :=
  let merged := fqs.foldl
    (fun m fq =>
      match fq.excludePattern with
      | some ep => mixin m (getAbsoluteIExpression ep fq.folder.fsPath)
      | none => m)
    []
  if merged.isEmpty then none else some merged

/-- ICommonQueryBuilderOptions. -/
structure CommonOptions where
  excludePattern : Option String := none
  includePattern : Option String := none
  extraFileResources : Option (List Uri) := none
  maxResults : Option Nat := none
  useRipgrep : Option Bool := none
  disregardIgnoreFiles : Option Bool := none
  disregardGlobalIgnoreFiles : Option Bool := none
  disregardExcludeSettings : Option Bool := none
  ignoreSymlinks : Option Bool := none
deriving Repr

/-- getExcludesForFolder from the source: the per-folder configured
excludes unless the caller disregards exclude settings. -/
def getExcludesForFolder (folderConfig : SearchConfig) (options : CommonOptions) : Option IExpression :=
  if options.disregardExcludeSettings.getD false then none else folderConfig.excludes

/-- getFolderQueryForRoot from the source. -/
def getFolderQueryForRoot (env : Env) (folder : Uri) (options : CommonOptions) : FolderQuery :=
  let folderConfig := env.config (some folder)
  { folder := folder
    excludePattern := getExcludesForFolder folderConfig options
    fileEncoding := folderConfig.filesEncoding
    disregardIgnoreFiles := some
      (match options.disregardIgnoreFiles with
       | some b => b
       | none => !folderConfig.useIgnoreFiles)
    disregardGlobalIgnoreFiles := some
      (match options.disregardGlobalIgnoreFiles with
       | some b => b
       | none => !folderConfig.useGlobalIgnoreFiles)
    ignoreSymlinks := some
      (match options.ignoreSymlinks with
       | some b => b
       | none => !folderConfig.followSymlinks) }

/-- getFolderQueryForSearchPath from the source: the include pattern is
built from the glob tail when that is a truthy (nonempty) string. -/
def getFolderQueryForSearchPath (env : Env) (searchPath : SearchPathPattern) : FolderQuery :=
  let folderConfig := env.config (some searchPath.searchPath)
  { folder := searchPath.searchPath
    includePattern :=
      match searchPath.pattern with
      | some p => if p = "" then none else patternListToIExpression [p]
      | none => none
    fileEncoding := folderConfig.filesEncoding }

/-- ICommonQueryProps. -/
structure CommonQueryProps where
  folderQueries : List FolderQuery
  usingSearchPaths : Bool
  extraFileResources : Option (List Uri)
  excludePattern : Option IExpression
  includePattern : Option IExpression
  maxResults : Option Nat
  useRipgrep : Bool
deriving DecidableEq, Repr

/-- commonQuery from the source: parse both pattern strings, build folder
queries from explicit roots, replace them with anchor-derived queries when
any anchors resolved (merging the explicit per-folder excludes into the
top-level exclude pattern first), compute the ripgrep flag, and filter the
extra file resources against the assembled patterns. -/
def commonQuery (env : Env) (folderResources : Option (List Uri)) (options : CommonOptions) : PResult CommonQueryProps :=
  match parseSearchPaths env options.includePattern with
  | .err e => .err e
  | .ok psp =>
    match parseExcludePattern env options.excludePattern with
    | .err e => .err e
    | .ok excludePattern0 =>
      let folderQueries0 := folderResources.map
        (fun frs => frs.map (fun u => getFolderQueryForRoot env u options))
      let step :=
        match psp.searchPaths with
        | some searchPaths =>
          let allRootExcludes := folderQueries0.bind mergeExcludesFromFolderQueries
          let fqs := searchPaths.map (fun sp => getFolderQueryForSearchPath env sp)
          let ex :=
            match allRootExcludes with
            | some are => some (mixin (excludePattern0.getD []) are)
            | none => excludePattern0
          (some fqs, ex)
        | none => (folderQueries0, excludePattern0)
      let useRipgrep :=
        match folderResources with
        | none => true
        | some frs => frs.all (fun folder => (env.config (some folder)).useRipgrep)
      let queryProps : CommonQueryProps :=
        { folderQueries := step.1.getD []
          usingSearchPaths := psp.searchPaths.isSome
          extraFileResources := options.extraFileResources
          excludePattern := step.2
          includePattern := psp.pattern
          maxResults := options.maxResults
          useRipgrep := useRipgrep }
      let extras := options.extraFileResources.map
        (fun l => l.filter (fun extraFile =>
          env.pathIncluded queryProps.includePattern queryProps.excludePattern extraFile.fsPath))
      let extras2 :=
        match extras with
        | some l => if l.isEmpty then none else some l
        | none => none
      .ok { queryProps with extraFileResources := extras2 }

/-- IFileQueryBuilderOptions. -/
structure FileQueryOptions extends CommonOptions where
  filePattern : Option String := none
  existsFlag : Option Bool := none
  sortByScore : Option Bool := none
  cacheKey : Option String := none
deriving Repr

/-- IFileQuery: the common props plus the file-query specific fields. -/
structure FileQuery where
  common : CommonQueryProps
  filePattern : Option String := none
  existsFlag : Option Bool := none
  sortByScore : Option Bool := none
  cacheKey : Option String := none
deriving DecidableEq, Repr

/-- The call boundary of commonQuery: an absent options argument defaults
to an empty options object via the parameter default. -/
def commonQueryJS (env : Env) (folderResources : Option (List Uri)) (options : Option CommonOptions) : PResult CommonQueryProps :=
  commonQuery env folderResources (options.getD {})

/-- The file entry point from the source: commonQuery runs first (with the
options argument defaulted inside), then the file query object literal
dereferences options.filePattern without a guard, which throws when the
options argument was omitted. -/
def file (env : Env) (folderResources : Option (List Uri)) (options : Option FileQueryOptions) : PResult FileQuery :=
  match commonQueryJS env folderResources (options.map (fun o => o.toCommonOptions)) with
  | .err e => .err e
  | .ok common =>
    match options with
    | none => .err "TypeError: cannot read property filePattern of undefined"
    | some o =>
      .ok { common := common
            filePattern :=
              match o.filePattern with
              | some fp => if fp = "" then some fp else some (trimChars fp)
              | none => none
            existsFlag := o.existsFlag
            sortByScore := o.sortByScore
            cacheKey := o.cacheKey }

/-
Concrete workspace fixtures used by counterexamples and witnesses.
-/

/-- A closed workspace: no folders open. -/
def fixEmptyEnv : Env :=
  { state := .empty, folders := [] }

/-- A single-folder workspace rooted at /w. -/
def fixFolderEnv : Env :=
  { state := .folder, folders := [⟨"w", ⟨"/w"⟩⟩] }

/-- A two-folder workspace with roots named app and lib. -/
def fixMultiEnv : Env :=
  { state := .workspace, folders := [⟨"app", ⟨"/r/app"⟩⟩, ⟨"lib", ⟨"/r/lib"⟩⟩] }

/-- A single-folder workspace whose root has a configured exclude pattern
with an absolute key. -/
def fixAbsExcludeEnv : Env :=
  { state := .folder
    folders := [⟨"w", ⟨"/w"⟩⟩]
    config := fun r => if r = some ⟨"/w"⟩ then { excludes := some [("/abs", true)] } else {} }

/-- A single-folder workspace whose root has a configured exclude pattern
with a relative key. -/
def fixRelExcludeEnv : Env :=
  { state := .folder
    folders := [⟨"w", ⟨"/w"⟩⟩]
    config := fun r => if r = some ⟨"/w"⟩ then { excludes := some [("nm", true)] } else {} }

/-- C1 counterexample: in the no-workspace mode an absolute anchor with no
glob metacharacter yields zero SearchPathPattern results, not exactly one
as claimed; the no-workspace guard ignores all anchors. -/
theorem c1_counterexample :
    expandSearchPathPatterns fixEmptyEnv ["/home/x/src"] = PResult.ok [] ∧
    expandSearchPathPatterns fixEmptyEnv ["/home/x/src"] ≠
      PResult.ok [{ searchPath := Uri.file (normalizePath "/home/x/src"), pattern := none }] := by
  decide

/-- C3 counterexample: in single-folder mode the anchor dot-slash is taken
by the single-folder branch first and resolves to one result (the root
joined with the anchor), not zero results as claimed. -/
theorem c3_counterexample :
    expandSearchPathPatterns fixFolderEnv ["./"] =
      PResult.ok [{ searchPath := ⟨"/w"⟩, pattern := none }] ∧
    expandSearchPathPatterns fixFolderEnv ["./"] ≠ PResult.ok [] := by
  decide

/-- C4 counterexample: for the segment /foo/bar/*.ts the returned path
portion is /foo/bar, which excludes the separator before the
metacharacter, while the claim says the path portion runs up to and
including that separator. -/
theorem c4_counterexample :
    splitGlobFromPath "/foo/bar/*.ts" = ("/foo/bar", some "*.ts") ∧
    "/foo/bar" ≠ "/foo/bar/" := by
  decide

/-- C5 counterexample: the anchor dotdot-slash-foo is a relative anchor
that does not match the dot-slash-name shape, yet in multi-root mode with
no folder named foo it throws instead of silently contributing zero
results, because the relative-anchor regex is unanchored and matches at
offset one. -/
theorem c5_counterexample :
    isSearchPath "../foo" = true ∧
    expandSearchPathPatterns fixMultiEnv ["../foo"] =
      PResult.err "No folder in workspace with name: foo" := by
  decide

/-- C6 counterexample: on the input of two stars the first output string
is exactly the five-character doubled-globstar sequence, so the claim that
no output ever contains that substring fails; the single left-to-right
replacement pass does not rescan the replaced text. -/
theorem c6_counterexample :
    expandGlobalGlob "**" = ["**/**", "**"] ∧
    ['*', '*', '/', '*', '*'] <:+: ("**/**".data) := by
  decide

/-- C2 counterexample: the sole explicit folder has a configured exclude
pattern whose only key is absolute; with an absolute include anchor the
folder queries are replaced (usingSearchPaths is true) but the final
top-level exclude pattern is absent, so the absolute exclude key of the
original folder is lost, contradicting the claim that no per-folder
exclude key is ever lost. -/
theorem c2_counterexample :
    commonQuery fixAbsExcludeEnv (some [⟨"/w"⟩]) { includePattern := some "/x" } =
      PResult.ok
        { folderQueries := [{ folder := ⟨"/x"⟩ }]
          usingSearchPaths := true
          extraFileResources := none
          excludePattern := none
          includePattern := none
          maxResults := none
          useRipgrep := true } ∧
    (getFolderQueryForRoot fixAbsExcludeEnv ⟨"/w"⟩ { includePattern := some "/x" }).excludePattern =
      some [("/abs", true)] := by
  decide

/-- C10: calling the file entry point with folder resources but an omitted
options argument throws (the file query literal dereferences the
filePattern property of the undefined options), while commonQuery itself
defaults the absent options argument to an empty options object and
succeeds. -/
theorem c10_file_options (env : Env) (folders : List Uri) :
    file env (some folders) none =
      PResult.err "TypeError: cannot read property filePattern of undefined" ∧
    ∃ props, commonQueryJS env (some folders) none = PResult.ok props := by
  have h1 : parseSearchPaths env none = PResult.ok {} := by
    simp [parseSearchPaths, splitGlobPattern, expandSearchPathPatterns,
      patternListToIExpression]
  have h2 : parseExcludePattern env none = PResult.ok none := by
    simp [parseExcludePattern, h1]
  have h3 : commonQuery env (some folders) {} =
      PResult.ok
        { folderQueries := folders.map (fun u => getFolderQueryForRoot env u {})
          usingSearchPaths := false
          extraFileResources := none
          excludePattern := none
          includePattern := none
          maxResults := none
          useRipgrep := folders.all (fun f => (env.config (some f)).useRipgrep) } := by
    simp [commonQuery, h1, h2]
  have h4 : commonQueryJS env (some folders) none = commonQuery env (some folders) {} := rfl
  have h5 := h4.trans h3
  refine ⟨?_, ⟨_, h5⟩⟩
  simp [file, h5]

/-
Supporting lemmas for the amended claims.
-/

/-- A list with no glob metacharacter has no first-metacharacter index. -/
theorem findGlobIdx_eq_none (l : List Char) (h : l.all (fun c => !isGlobChar c) = true) :
    findGlobIdx l = none := by
  induction l with
  | nil => rfl
  | cons c rest ih =>
    simp only [List.all_cons, Bool.and_eq_true, Bool.not_eq_true'] at h
    simp [findGlobIdx, h.1, ih h.2]

/-- A segment with no glob metacharacter is returned whole, with no glob
portion. -/
theorem splitGlobFromPath_no_glob (s : String) (h : s.data.all (fun c => !isGlobChar c) = true) :
    splitGlobFromPath s = (s, none) := by
  simp [splitGlobFromPath, findGlobIdx_eq_none _ h]

/-- C1 amended: an absolute anchor segment with no glob metacharacter
resolves to exactly one SearchPathPattern with the normalized absolute
location and no tail in the single-folder and multi-folder modes, and to
zero patterns in the no-workspace mode (the claim said exactly one in
every mode, including no workspace). -/
theorem c1_amended (env : Env) (seg : String)
    (habs : isAbsolutePath seg = true)
    (hng : seg.data.all (fun c => !isGlobChar c) = true) :
    expandSearchPathPatterns env [seg] =
      PResult.ok
        (if env.state = WorkbenchState.empty then []
         else [{ searchPath := Uri.file (normalizePath seg), pattern := none }]) := by
  have hsplit := splitGlobFromPath_no_glob seg hng
  by_cases he : env.state = WorkbenchState.empty
  · simp [expandSearchPathPatterns, he]
  · simp [expandSearchPathPatterns, he, expandSearchPathPatternsRaw, expandOneSearchPath,
      hsplit, expandAbsoluteSearchPaths, habs, uniqueByKey, uniqueGo]

/-- C1 amended witness at a concrete absolute anchor in the single-folder
workspace. -/
theorem c1_amended_witness :
    (isAbsolutePath "/home/x/src" = true ∧
      "/home/x/src".data.all (fun c => !isGlobChar c) = true) ∧
    expandSearchPathPatterns fixFolderEnv ["/home/x/src"] =
      PResult.ok
        (if fixFolderEnv.state = WorkbenchState.empty then []
         else [{ searchPath := Uri.file (normalizePath "/home/x/src"), pattern := none }]) :=
  ⟨⟨by decide, by decide⟩, c1_amended fixFolderEnv "/home/x/src" (by decide) (by decide)⟩

/-- C3 amended: the anchor dot-slash resolves to exactly one pattern (the
sole root joined with the anchor, no tail) in single-folder mode, and to
zero patterns in multi-folder mode; no error is raised in either case. -/
theorem c3_amended :
    (∀ (env : Env) (f : WorkspaceFolder) (rest : List WorkspaceFolder),
      env.state = WorkbenchState.folder → env.folders = f :: rest →
      expandSearchPathPatterns env ["./"] =
        PResult.ok [{ searchPath := joinPath f.uri "./", pattern := none }]) ∧
    (∀ env : Env, env.state = WorkbenchState.workspace →
      expandSearchPathPatterns env ["./"] = PResult.ok []) := by
  have hsplit : splitGlobFromPath "./" = ("./", none) := by decide
  have habs : isAbsolutePath "./" = false := by decide
  constructor
  · intro env f rest hstate hfolders
    simp [expandSearchPathPatterns, hstate, expandSearchPathPatternsRaw, expandOneSearchPath,
      hsplit, expandAbsoluteSearchPaths, habs, hfolders, uniqueByKey, uniqueGo]
  · intro env hstate
    simp [expandSearchPathPatterns, hstate, expandSearchPathPatternsRaw, expandOneSearchPath,
      hsplit, expandAbsoluteSearchPaths, habs, uniqueByKey, uniqueGo]

/-- C3 amended witness: instantiates the single-folder conjunct at the /w
workspace and the multi-folder conjunct at the two-folder workspace. -/
theorem c3_amended_witness :
    (fixFolderEnv.state = WorkbenchState.folder ∧
      fixFolderEnv.folders = ⟨"w", ⟨"/w"⟩⟩ :: [] ∧
      expandSearchPathPatterns fixFolderEnv ["./"] =
        PResult.ok [{ searchPath := joinPath (Uri.mk "/w") "./", pattern := none }]) ∧
    (fixMultiEnv.state = WorkbenchState.workspace ∧
      expandSearchPathPatterns fixMultiEnv ["./"] = PResult.ok []) :=
  ⟨⟨rfl, rfl, c3_amended.1 fixFolderEnv ⟨"w", ⟨"/w"⟩⟩ [] rfl rfl⟩,
   ⟨rfl, c3_amended.2 fixMultiEnv rfl⟩⟩

/-- True when the unanchored relative regex matches the segment and the
captured name matches no open root folder. -/
def namedRootMissing (env : Env) (seg : String) : Bool :=
  match relativeSearchPathMatch seg with
  | some (root, _) => !(env.folders.any (fun f => f.name = root))
  | none => false

/-- C5 amended: in multi-root mode a relative glob-free anchor other than
the bare dot-slash throws if and only if the unanchored relative regex
finds a dot-separator-name occurrence anywhere in the segment (so for
example a dotdot-slash-name anchor also triggers the lookup) whose name
matches no open root folder; when the regex finds no occurrence at all the
anchor silently contributes zero results. -/
theorem c5_amended (env : Env) (seg : String)
    (hstate : env.state = WorkbenchState.workspace)
    (habs : isAbsolutePath seg = false)
    (hng : seg.data.all (fun c => !isGlobChar c) = true)
    (hdot : seg ≠ "./") :
    ((∃ m, expandSearchPathPatterns env [seg] = PResult.err m) ↔
      namedRootMissing env seg = true) ∧
    (relativeSearchPathMatch seg = none →
      expandSearchPathPatterns env [seg] = PResult.ok []) := by
  have hsplit := splitGlobFromPath_no_glob seg hng
  cases hm : relativeSearchPathMatch seg with
  | none =>
    simp [expandSearchPathPatterns, hstate, expandSearchPathPatternsRaw, expandOneSearchPath,
      hsplit, expandAbsoluteSearchPaths, habs, hdot, hm, namedRootMissing,
      uniqueByKey, uniqueGo]
  | some rootRem =>
    obtain ⟨root, rem⟩ := rootRem
    by_cases hroots : (env.folders.filter (fun f => f.name = root)).isEmpty = true
    · have hany : env.folders.any (fun f => f.name = root) = false := by
        rw [List.any_eq_false]
        intro f hf
        have := List.filter_eq_nil_iff.mp (List.isEmpty_iff.mp hroots) f hf
        simpa using this
      simp [expandSearchPathPatterns, hstate, expandSearchPathPatternsRaw, expandOneSearchPath,
        hsplit, expandAbsoluteSearchPaths, habs, hdot, hm, hroots, namedRootMissing, hany]
    · have hany : env.folders.any (fun f => f.name = root) = true := by
        rw [List.any_eq_true]
        rcases hne : env.folders.filter (fun f => f.name = root) with _ | ⟨f, fs⟩
        · exact absurd (by simp [List.isEmpty_iff, hne]) hroots
        · have hfmem : f ∈ env.folders.filter (fun f => f.name = root) := by
            rw [hne]; exact List.mem_cons_self f fs
          refine ⟨f, List.mem_of_mem_filter hfmem, ?_⟩
          simpa using List.of_mem_filter hfmem
      simp [expandSearchPathPatterns, hstate, expandSearchPathPatternsRaw, expandOneSearchPath,
        hsplit, expandAbsoluteSearchPaths, habs, hdot, hm, hroots, namedRootMissing, hany]

/-- C5 amended witness: the anchor dotdot-slash in the two-folder
workspace finds no regex occurrence, so both conjuncts apply with the
silently-empty outcome. -/
theorem c5_amended_witness :
    (fixMultiEnv.state = WorkbenchState.workspace ∧ isAbsolutePath "../" = false ∧
      "../".data.all (fun c => !isGlobChar c) = true ∧ "../" ≠ "./") ∧
    (((∃ m, expandSearchPathPatterns fixMultiEnv ["../"] = PResult.err m) ↔
        namedRootMissing fixMultiEnv "../" = true) ∧
      (relativeSearchPathMatch "../" = none →
        expandSearchPathPatterns fixMultiEnv ["../"] = PResult.ok [])) :=
  ⟨⟨rfl, by decide, by decide, by decide⟩,
   c5_amended fixMultiEnv "../" rfl (by decide) (by decide) (by decide)⟩

/-- Setting a key never produces the empty expression. -/
theorem exprSet_ne_nil (e : IExpression) (k : String) (v : Bool) : exprSet e k v ≠ [] := by
  unfold exprSet
  split
  · next h =>
    intro hc
    rw [List.map_eq_nil_iff] at hc
    subst hc
    simp at h
  · simp

/-- Folding true-valued key insertions over a nonempty accumulator stays
nonempty. -/
theorem foldl_exprSet_ne_nil (l : List String) (acc : IExpression) (h : acc ≠ []) :
    l.foldl (fun g cur => exprSet g cur true) acc ≠ [] := by
  induction l generalizing acc with
  | nil => exact h
  | cons x xs ih => exact ih _ (exprSet_ne_nil acc x true)

/-- A present result of patternListToIExpression has at least one key. -/
theorem patternListToIExpression_some_ne_nil (l : List String) (e : IExpression)
    (h : patternListToIExpression l = some e) : e ≠ [] := by
  unfold patternListToIExpression at h
  split at h
  · simp at h
  · next hne =>
    injection h with h
    subst h
    cases l with
    | nil => simp at hne
    | cons x xs => exact foldl_exprSet_ne_nil xs _ (exprSet_ne_nil [] x true)

/-- The pattern field of a successful parseSearchPaths result is nonempty
when present. -/
theorem parseSearchPaths_pattern_ne_nil (env : Env) (p : Option String)
    (r : SearchPathsResult) (e : IExpression)
    (h : parseSearchPaths env p = PResult.ok r) (hp : r.pattern = some e) : e ≠ [] := by
  simp only [parseSearchPaths] at h
  split at h
  · next searchPaths heq =>
    split at h
    · next ip hip =>
      injection h with h
      subst h
      simp at hp
      subst hp
      exact patternListToIExpression_some_ne_nil _ _ hip
    · injection h with h
      subst h
      split at hp <;> simp at hp
  · cases h

/-- The searchPaths field of a successful parseSearchPaths result is
nonempty when present. -/
theorem parseSearchPaths_searchPaths_ne_nil (env : Env) (p : Option String)
    (r : SearchPathsResult) (sps : List SearchPathPattern)
    (h : parseSearchPaths env p = PResult.ok r) (hp : r.searchPaths = some sps) : sps ≠ [] := by
  simp only [parseSearchPaths] at h
  split at h
  · next searchPaths heq =>
    split at h
    · next ip hip =>
      injection h with h
      subst h
      simp at hp
      split at hp
      · simp at hp
      · next hne =>
        simp at hp
        subst hp
        simpa [List.isEmpty_iff] using hne
    · injection h with h
      subst h
      split at hp
      · simp at hp
      · next hne =>
        simp at hp
        subst hp
        simpa [List.isEmpty_iff] using hne
  · cases h

/-- A present result of parseExcludePattern has at least one key. -/
theorem parseExcludePattern_some_ne_nil (env : Env) (p : Option String) (e : IExpression)
    (h : parseExcludePattern env p = PResult.ok (some e)) : e ≠ [] := by
  unfold parseExcludePattern at h
  split at h
  · next result heq =>
    injection h with h
    split at h
    · simp at h
    · next hne =>
      injection h with h
      subst h
      simpa [List.isEmpty_iff] using hne
  · cases h

/-- A present result of mergeExcludesFromFolderQueries has at least one
key. -/
theorem mergeExcludes_some_ne_nil (fqs : List FolderQuery) (e : IExpression)
    (h : mergeExcludesFromFolderQueries fqs = some e) : e ≠ [] := by
  simp only [mergeExcludesFromFolderQueries] at h
  split at h
  · simp at h
  · next hne =>
    injection h with h
    subst h
    simpa [List.isEmpty_iff] using hne

/-- A present includePattern of an anchor-derived folder query has at
least one key. -/
theorem folderQueryForSearchPath_include_ne_nil (env : Env) (sp : SearchPathPattern)
    (e : IExpression) (h : (getFolderQueryForSearchPath env sp).includePattern = some e) :
    e ≠ [] := by
  unfold getFolderQueryForSearchPath at h
  simp at h
  split at h
  · next p =>
    split at h
    · simp at h
    · exact patternListToIExpression_some_ne_nil _ _ h
  · simp at h

/-- C9: every PatternExpression produced by the pipeline has at least one
key when present: the pattern field of parseSearchPaths, the result of
parseExcludePattern, the merged per-folder excludes, and the
includePattern of an anchor-derived folder query; absence is always
represented as an absent value, never as a present empty map. -/
theorem c9_nonempty_invariant :
    (∀ (env : Env) (p : Option String) (r : SearchPathsResult) (e : IExpression),
      parseSearchPaths env p = PResult.ok r → r.pattern = some e → e ≠ []) ∧
    (∀ (env : Env) (p : Option String) (e : IExpression),
      parseExcludePattern env p = PResult.ok (some e) → e ≠ []) ∧
    (∀ (fqs : List FolderQuery) (e : IExpression),
      mergeExcludesFromFolderQueries fqs = some e → e ≠ []) ∧
    (∀ (env : Env) (sp : SearchPathPattern) (e : IExpression),
      (getFolderQueryForSearchPath env sp).includePattern = some e → e ≠ []) :=
  ⟨parseSearchPaths_pattern_ne_nil, parseExcludePattern_some_ne_nil,
   mergeExcludes_some_ne_nil, folderQueryForSearchPath_include_ne_nil⟩

/-- C9 witness: each of the four conjuncts applied at a concrete input
with its hypotheses discharged by evaluation. -/
theorem c9_nonempty_invariant_witness :
    (parseSearchPaths fixFolderEnv (some "a") =
        PResult.ok { searchPaths := none, pattern := some [("**/a/**", true), ("**/a", true)] } ∧
      ([("**/a/**", true), ("**/a", true)] : IExpression) ≠ []) ∧
    (parseExcludePattern fixFolderEnv (some "a") =
        PResult.ok (some [("**/a/**", true), ("**/a", true)]) ∧
      ([("**/a/**", true), ("**/a", true)] : IExpression) ≠ []) ∧
    (mergeExcludesFromFolderQueries [{ folder := ⟨"/w"⟩, excludePattern := some [("nm", true)] }] =
        some [("/w/nm", true)] ∧
      ([("/w/nm", true)] : IExpression) ≠ []) ∧
    ((getFolderQueryForSearchPath fixFolderEnv ⟨⟨"/a"⟩, some "g"⟩).includePattern =
        some [("g", true)] ∧
      ([("g", true)] : IExpression) ≠ []) :=
  ⟨⟨by decide,
    c9_nonempty_invariant.1 fixFolderEnv (some "a")
      { searchPaths := none, pattern := some [("**/a/**", true), ("**/a", true)] }
      [("**/a/**", true), ("**/a", true)] (by decide) rfl⟩,
   ⟨by decide,
    c9_nonempty_invariant.2.1 fixFolderEnv (some "a")
      [("**/a/**", true), ("**/a", true)] (by decide)⟩,
   ⟨by decide,
    c9_nonempty_invariant.2.2.1 [{ folder := ⟨"/w"⟩, excludePattern := some [("nm", true)] }]
      [("/w/nm", true)] (by decide)⟩,
   ⟨by decide,
    c9_nonempty_invariant.2.2.2 fixFolderEnv ⟨⟨"/a"⟩, some "g"⟩
      [("g", true)] (by decide)⟩⟩

/-- Membership characterization of the seen-set deduplication: an element
is kept exactly when its key is not among the already-seen keys and it is
the first element of the list bearing its key. -/
theorem uniqueGo_mem {α : Type} (key : α → String) (seen : List String) (l : List α) (p : α) :
    p ∈ uniqueGo key seen l ↔
      (key p ∉ seen ∧ l.find? (fun q => key q = key p) = some p) := by
  induction l generalizing seen with
  | nil => simp [uniqueGo]
  | cons x xs ih =>
    by_cases hseen : key x ∈ seen
    · by_cases hkey : key x = key p
      · rw [uniqueGo, if_pos hseen, ih]
        constructor
        · rintro ⟨hns, -⟩
          exact absurd (hkey ▸ hseen) hns
        · rintro ⟨hns, -⟩
          exact absurd (hkey ▸ hseen) hns
      · rw [uniqueGo, if_pos hseen, ih, List.find?_cons_of_neg _ (by simpa using hkey)]
    · rw [uniqueGo, if_neg hseen]
      by_cases hkey : key x = key p
      · rw [List.find?_cons_of_pos _ (by simpa using hkey)]
        simp only [List.mem_cons, ih]
        constructor
        · rintro (rfl | ⟨hns, hfind⟩)
          · exact ⟨hkey ▸ hseen, rfl⟩
          · exact absurd (by simp [hkey]) hns
        · rintro ⟨hns, hx⟩
          exact Or.inl (by injection hx with hx; exact hx.symm)
      · rw [List.find?_cons_of_neg _ (by simpa using hkey)]
        simp only [List.mem_cons, ih]
        constructor
        · rintro (rfl | ⟨hns, hfind⟩)
          · exact absurd rfl hkey
          · exact ⟨fun hc => hns (Or.inr hc), hfind⟩
        · rintro ⟨hns, hfind⟩
          refine Or.inr ⟨?_, hfind⟩
          rintro (hc | hc)
          · exact hkey hc.symm
          · exact hns hc
  
/-- Every kept element has a key outside the seen set. -/
theorem uniqueGo_key_not_seen {α : Type} (key : α → String) (seen : List String) (l : List α)
    (p : α) (hp : p ∈ uniqueGo key seen l) : key p ∉ seen :=
  ((uniqueGo_mem key seen l p).mp hp).1

/-- The deduplicated list has pairwise distinct keys. -/
theorem uniqueGo_pairwise {α : Type} (key : α → String) (seen : List String) (l : List α) :
    (uniqueGo key seen l).Pairwise (fun a b => key a ≠ key b) := by
  induction l generalizing seen with
  | nil => exact List.Pairwise.nil
  | cons x xs ih =>
    rw [uniqueGo]
    split
    · exact ih seen
    · refine List.Pairwise.cons ?_ (ih (key x :: seen))
      intro b hb
      have := uniqueGo_key_not_seen key (key x :: seen) xs b hb
      intro hc
      exact this (by simp [hc])

/-- C8: when the flattened anchor expansion succeeds, the resolver output
is the first-occurrence deduplication of it by the canonical string form
of the location: the kept locations are pairwise distinct and each output
element is exactly the first element of the flattened expansion bearing
its location key, with that first tail. -/
theorem c8_dedupe_spec (env : Env) (segs : List String) (flat : List SearchPathPattern)
    (hne : env.state ≠ WorkbenchState.empty) (hs : segs ≠ [])
    (hraw : expandSearchPathPatternsRaw env segs = PResult.ok flat) :
    expandSearchPathPatterns env segs = PResult.ok (uniqueByKey searchPathKey flat) ∧
    (uniqueByKey searchPathKey flat).Pairwise (fun a b => a.searchPath ≠ b.searchPath) ∧
    ∀ p, p ∈ uniqueByKey searchPathKey flat ↔
      flat.find? (fun q => searchPathKey q = searchPathKey p) = some p := by
  refine ⟨?_, ?_, ?_⟩
  · have hempty : segs.isEmpty = false := by
      cases segs with
      | nil => exact absurd rfl hs
      | cons a as => rfl
    simp [expandSearchPathPatterns, hne, hempty, hraw]
  · refine (uniqueGo_pairwise searchPathKey [] flat).imp ?_
    intro a b hk hc
    exact hk (by simp [searchPathKey, Uri.toString, hc])
  · intro p
    rw [uniqueByKey, uniqueGo_mem]
    simp

/-- C8 witness: two anchors resolving to the same location with different
tails; the deduplicated output keeps the first and its tail. -/
theorem c8_dedupe_spec_witness :
    (fixFolderEnv.state ≠ WorkbenchState.empty ∧ (["/a/x", "/a/x/*"] : List String) ≠ [] ∧
      expandSearchPathPatternsRaw fixFolderEnv ["/a/x", "/a/x/*"] =
        PResult.ok [⟨⟨"/a/x"⟩, none⟩, ⟨⟨"/a/x"⟩, some "*"⟩]) ∧
    (expandSearchPathPatterns fixFolderEnv ["/a/x", "/a/x/*"] =
        PResult.ok (uniqueByKey searchPathKey [⟨⟨"/a/x"⟩, none⟩, ⟨⟨"/a/x"⟩, some "*"⟩]) ∧
      (uniqueByKey searchPathKey [⟨⟨"/a/x"⟩, none⟩, ⟨⟨"/a/x"⟩, some "*"⟩]).Pairwise
        (fun a b => a.searchPath ≠ b.searchPath) ∧
      ∀ p, p ∈ uniqueByKey searchPathKey [⟨⟨"/a/x"⟩, none⟩, ⟨⟨"/a/x"⟩, some "*"⟩] ↔
        ([⟨⟨"/a/x"⟩, none⟩, ⟨⟨"/a/x"⟩, some "*"⟩] : List SearchPathPattern).find?
          (fun q => searchPathKey q = searchPathKey p) = some p) :=
  ⟨⟨by decide, by decide, by decide⟩,
   c8_dedupe_spec fixFolderEnv ["/a/x", "/a/x/*"] [⟨⟨"/a/x"⟩, none⟩, ⟨⟨"/a/x"⟩, some "*"⟩]
     (by decide) (by decide) (by decide)⟩

/-- The key list of an updated expression: unchanged when the key was
present, extended by the key otherwise. -/
theorem keys_exprSet (e : IExpression) (k : String) (v : Bool) :
    (exprSet e k v).map Prod.fst =
      if e.any (fun kv => kv.1 = k) then e.map Prod.fst else e.map Prod.fst ++ [k] := by
  unfold exprSet
  split
  · rw [List.map_map]
    refine List.map_congr_left ?_
    intro kv _
    by_cases hk : kv.1 = k
    · simp [hk]
    · simp [hk]
  · simp

/-- Key membership as membership in the key list. -/
theorem exprHasKey_mem_keys (e : IExpression) (k : String) :
    exprHasKey e k = true ↔ k ∈ e.map Prod.fst := by
  simp only [exprHasKey, List.any_eq_true, List.mem_map, decide_eq_true_eq]

/-- Key membership after a key update: the old keys plus the new one. -/
theorem exprSet_hasKey_iff (e : IExpression) (k : String) (v : Bool) (k2 : String) :
    exprHasKey (exprSet e k v) k2 = true ↔ (exprHasKey e k2 = true ∨ k2 = k) := by
  rw [exprHasKey_mem_keys, exprHasKey_mem_keys, keys_exprSet]
  split
  · next h =>
    constructor
    · exact Or.inl
    · rintro (h2 | rfl)
      · exact h2
      · rw [List.any_eq_true] at h
        obtain ⟨kv, hmem, hk⟩ := h
        rw [List.mem_map]
        exact ⟨kv, hmem, by simpa using hk⟩
  · simp

/-- Key membership after folding key insertions: the accumulator keys plus
one key per list element. -/
theorem foldl_exprSet_hasKey_iff {β : Type} (f : β → String) (g : β → Bool)
    (l : List β) (acc : IExpression) (k : String) :
    exprHasKey (l.foldl (fun e b => exprSet e (f b) (g b)) acc) k = true ↔
      (exprHasKey acc k = true ∨ ∃ b ∈ l, f b = k) := by
  induction l generalizing acc with
  | nil => simp
  | cons b bs ih =>
    rw [List.foldl_cons, ih, exprSet_hasKey_iff]
    constructor
    · rintro ((h | h) | ⟨b2, hmem, hb2⟩)
      · exact Or.inl h
      · exact Or.inr ⟨b, List.mem_cons_self b bs, h.symm⟩
      · exact Or.inr ⟨b2, List.mem_cons_of_mem b hmem, hb2⟩
    · rintro (h | ⟨b2, hmem, hb2⟩)
      · exact Or.inl (Or.inl h)
      · rcases List.mem_cons.mp hmem with rfl | hmem2
        · exact Or.inl (Or.inr hb2.symm)
        · exact Or.inr ⟨b2, hmem2, hb2⟩

/-- Key membership in a mixed expression: union of the two key sets. -/
theorem mixin_hasKey_iff (d s : IExpression) (k : String) :
    exprHasKey (mixin d s) k = true ↔ (exprHasKey d k = true ∨ exprHasKey s k = true) := by
  have h := foldl_exprSet_hasKey_iff Prod.fst Prod.snd s d k
  rw [mixin]
  rw [show (fun d' (kv : String × Bool) => exprSet d' kv.1 kv.2) =
        (fun e b => exprSet e b.1 b.2) from rfl]
  rw [h]
  simp only [exprHasKey, List.any_eq_true, decide_eq_true_eq]

/-- A key update with a true value preserves the all-values-true
invariant. -/
theorem allTrue_exprSet (e : IExpression) (k : String) (v : Bool)
    (he : ∀ kv ∈ e, kv.2 = true) (hv : v = true) :
    ∀ kv ∈ exprSet e k v, kv.2 = true := by
  unfold exprSet
  split
  · intro kv hkv
    rw [List.mem_map] at hkv
    obtain ⟨kv0, h0, heq⟩ := hkv
    by_cases hk : kv0.1 = k
    · rw [if_pos hk] at heq
      rw [← heq]
      exact hv
    · rw [if_neg hk] at heq
      rw [← heq]
      exact he kv0 h0
  · intro kv hkv
    rcases List.mem_append.mp hkv with h2 | h2
    · exact he kv h2
    · rw [List.mem_singleton] at h2
      rw [h2]
      exact hv

/-- Folding true-valued key insertions preserves the all-values-true
invariant. -/
theorem allTrue_foldl {β : Type} (f : β → String) (g : β → Bool) (l : List β)
    (acc : IExpression) (hacc : ∀ kv ∈ acc, kv.2 = true) (hg : ∀ b ∈ l, g b = true) :
    ∀ kv ∈ l.foldl (fun e b => exprSet e (f b) (g b)) acc, kv.2 = true := by
  induction l generalizing acc with
  | nil => exact hacc
  | cons b bs ih =>
    rw [List.foldl_cons]
    exact ih _ (allTrue_exprSet acc (f b) (g b) hacc (hg b (List.mem_cons_self b bs)))
      (fun b2 h2 => hg b2 (List.mem_cons_of_mem b h2))

/-- All values of a present patternListToIExpression result are true. -/
theorem patternListToIExpression_allTrue (l : List String) (e : IExpression)
    (h : patternListToIExpression l = some e) : ∀ kv ∈ e, kv.2 = true := by
  unfold patternListToIExpression at h
  split at h
  · simp at h
  · injection h with h
    subst h
    exact allTrue_foldl (fun s => s) (fun _ => true) l [] (by simp) (by simp)

/-- All values of the pattern field of a successful parseSearchPaths
result are true. -/
theorem parseSearchPaths_pattern_allTrue (env : Env) (p : Option String)
    (r : SearchPathsResult) (pe : IExpression)
    (h : parseSearchPaths env p = PResult.ok r) (hp : r.pattern = some pe) :
    ∀ kv ∈ pe, kv.2 = true := by
  simp only [parseSearchPaths] at h
  split at h
  · next searchPaths heq =>
    split at h
    · next ip hip =>
      injection h with h
      subst h
      simp at hp
      subst hp
      exact patternListToIExpression_allTrue _ _ hip
    · injection h with h
      subst h
      split at hp <;> simp at hp
  · cases h

/-- The glob-side contribution of parseExcludePattern: the parsed pattern
mixed into an empty expression. -/
def expr1 (r : SearchPathsResult) : IExpression :=
  match r.pattern with
  | some pp => mixin [] pp
  | none => []

/-- The full merged exclude expression of parseExcludePattern before the
emptiness test. -/
def expr2 (r : SearchPathsResult) : IExpression :=
  match r.searchPaths with
  | some sps => sps.foldl (fun e sp => exprSet e (searchPathExcludeKey sp) true) (expr1 r)
  | none => expr1 r

/-- A string is an exclude key of a parse result when it is a key of the
glob expression or the literal exclude key of some resolved search path. -/
def excludeKeyProp (r : SearchPathsResult) (k : String) : Prop :=
  (∃ pe, r.pattern = some pe ∧ exprHasKey pe k = true) ∨
  (∃ sps, r.searchPaths = some sps ∧ ∃ sp ∈ sps, searchPathExcludeKey sp = k)

/-- Key membership after folding search-path exclude keys. -/
theorem foldl_spExcl_hasKey_iff (sps : List SearchPathPattern) (acc : IExpression) (k : String) :
    exprHasKey (sps.foldl (fun e sp => exprSet e (searchPathExcludeKey sp) true) acc) k = true ↔
      (exprHasKey acc k = true ∨ ∃ sp ∈ sps, searchPathExcludeKey sp = k) :=
  foldl_exprSet_hasKey_iff searchPathExcludeKey (fun _ => true) sps acc k

/-- Folding search-path exclude keys preserves the all-values-true
invariant. -/
theorem allTrue_foldl_spExcl (sps : List SearchPathPattern) (acc : IExpression)
    (hacc : ∀ kv ∈ acc, kv.2 = true) :
    ∀ kv ∈ sps.foldl (fun e sp => exprSet e (searchPathExcludeKey sp) true) acc, kv.2 = true :=
  allTrue_foldl searchPathExcludeKey (fun _ => true) sps acc hacc (fun _ _ => rfl)

/-- C7: for every input whose parseSearchPaths parse succeeds,
parseExcludePattern returns the union of the glob-expression keys and one
literal key per resolved search path (the location joined with the tail
when a tail is present, the bare location otherwise), every key mapped to
true, and it returns the absent value exactly when that merged key set is
empty. -/
theorem c7_parseExcludePattern_spec (env : Env) (p : Option String) (r : SearchPathsResult)
    (h : parseSearchPaths env p = PResult.ok r) :
    ∃ res, parseExcludePattern env p = PResult.ok res ∧
      (res = none ↔ ∀ k, ¬ excludeKeyProp r k) ∧
      (∀ e, res = some e →
        (∀ kv ∈ e, kv.2 = true) ∧ ∀ k, exprHasKey e k = true ↔ excludeKeyProp r k) := by
  have hpe : parseExcludePattern env p =
      PResult.ok (if (expr2 r).isEmpty then none else some (expr2 r)) := by
    unfold parseExcludePattern
    rw [h]
    rfl
  have hkey1 : ∀ k, exprHasKey (expr1 r) k = true ↔
      (∃ pe, r.pattern = some pe ∧ exprHasKey pe k = true) := by
    intro k
    unfold expr1
    cases hrp : r.pattern with
    | none => simp [exprHasKey]
    | some pp =>
      rw [mixin_hasKey_iff]
      simp [exprHasKey]
  have hkey2 : ∀ k, exprHasKey (expr2 r) k = true ↔ excludeKeyProp r k := by
    intro k
    unfold expr2
    cases hrs : r.searchPaths with
    | none =>
      rw [hkey1 k]
      unfold excludeKeyProp
      simp [hrs]
    | some sps =>
      rw [foldl_spExcl_hasKey_iff, hkey1 k]
      unfold excludeKeyProp
      simp [hrs]
  have hall1 : ∀ kv ∈ expr1 r, kv.2 = true := by
    unfold expr1
    cases hrp : r.pattern with
    | none => simp
    | some pp =>
      exact allTrue_foldl Prod.fst Prod.snd pp [] (by simp)
        (parseSearchPaths_pattern_allTrue env p r pp h hrp)
  have hall : ∀ kv ∈ expr2 r, kv.2 = true := by
    unfold expr2
    cases hrs : r.searchPaths with
    | none => exact hall1
    | some sps => exact allTrue_foldl_spExcl sps (expr1 r) hall1
  by_cases hemp : (expr2 r).isEmpty = true
  · refine ⟨none, ?_, ?_, ?_⟩
    · rw [hpe, if_pos hemp]
    · constructor
      · intro _ k hk
        have hhk := (hkey2 k).mpr hk
        rw [List.isEmpty_iff] at hemp
        rw [hemp] at hhk
        simp [exprHasKey] at hhk
      · intro _
        rfl
    · intro e he
      exact Option.noConfusion he
  · refine ⟨some (expr2 r), ?_, ?_, ?_⟩
    · rw [hpe, if_neg hemp]
    · constructor
      · intro hcon
        exact Option.noConfusion hcon
      · intro hforall
        exfalso
        cases hx : expr2 r with
        | nil => exact hemp (by simp [hx])
        | cons kv rest =>
          have hk : exprHasKey (expr2 r) kv.1 = true := by
            rw [hx]
            simp [exprHasKey]
          exact hforall kv.1 ((hkey2 kv.1).mp hk)
    · intro e he
      injection he with he
      subst he
      exact ⟨hall, hkey2⟩

/-- C7 witness: a pattern mixing a glob and a relative anchor in the
single-folder workspace; the hypothesis parse result is evaluated and the
theorem applied to it. -/
theorem c7_parseExcludePattern_spec_witness :
    (parseSearchPaths fixFolderEnv (some "node_modules,./lib") =
      PResult.ok
        { searchPaths := some [⟨⟨"/w/lib"⟩, none⟩]
          pattern := some [("**/node_modules/**", true), ("**/node_modules", true)] }) ∧
    (∃ res, parseExcludePattern fixFolderEnv (some "node_modules,./lib") = PResult.ok res ∧
      (res = none ↔ ∀ k, ¬ excludeKeyProp
        { searchPaths := some [⟨⟨"/w/lib"⟩, none⟩]
          pattern := some [("**/node_modules/**", true), ("**/node_modules", true)] } k) ∧
      (∀ e, res = some e →
        (∀ kv ∈ e, kv.2 = true) ∧ ∀ k, exprHasKey e k = true ↔ excludeKeyProp
          { searchPaths := some [⟨⟨"/w/lib"⟩, none⟩]
            pattern := some [("**/node_modules/**", true), ("**/node_modules", true)] } k)) :=
  ⟨by decide,
   c7_parseExcludePattern_spec fixFolderEnv (some "node_modules,./lib")
     { searchPaths := some [⟨⟨"/w/lib"⟩, none⟩]
       pattern := some [("**/node_modules/**", true), ("**/node_modules", true)] }
     (by decide)⟩

/-- Index of the last slash-or-backslash separator in a character list,
defined from the tail end, as the reference form of the nearest separator
before the metacharacter. -/
def lastSepIdx : List Char → Option Nat
  | [] => none
  | c :: rest =>
    match lastSepIdx rest with
    | some i => some (i + 1)
    | none => if isSepChar c then some 0 else none

/-- The last separator index is absent exactly when the list has no
separator. -/
theorem lastSepIdx_eq_none_iff (l : List Char) :
    lastSepIdx l = none ↔ l.all (fun c => !isSepChar c) = true := by
  induction l with
  | nil => simp [lastSepIdx]
  | cons c rest ih =>
    rw [lastSepIdx]
    cases hrest : lastSepIdx rest with
    | some i =>
      simp only [List.all_cons, Bool.and_eq_true]
      constructor
      · intro hc
        exact Option.noConfusion hc
      · rintro ⟨-, hall⟩
        exact absurd (ih.mpr hall) (by simp [hrest])
    | none =>
      have hall := ih.mp hrest
      by_cases hc : isSepChar c = true
      · simp [hc, hall]
      · simp only [Bool.not_eq_true] at hc
        simp [hc, hall]

/-- On a list without a pipe character the leftmost match of the source
last-slash regex is exactly the last separator index. -/
theorem regexSepMatchIdx_eq_lastSepIdx (l : List Char) (h : '|' ∉ l) :
    regexSepMatchIdx l = lastSepIdx l := by
  induction l with
  | nil => rfl
  | cons c rest ih =>
    have hc : c ≠ '|' := fun hc => h (by simp [hc])
    have hrest : '|' ∉ rest := fun hr => h (List.mem_cons_of_mem c hr)
    have hpipe : isSepOrPipe c = isSepChar c := by
      unfold isSepOrPipe isSepChar
      rcases hcv : decide (c = '|') with _ | _
      · simp at hcv
        simp [hcv]
      · simp at hcv
        exact absurd hcv hc
    rw [regexSepMatchIdx, lastSepIdx, hpipe, ih hrest]
    by_cases hall : rest.all (fun d => !isSepChar d) = true
    · have hnone : lastSepIdx rest = none := (lastSepIdx_eq_none_iff rest).mpr hall
      rw [hnone]
      by_cases hsep : isSepChar c = true
      · simp [hsep, hall]
      · simp only [Bool.not_eq_true] at hsep
        simp [hsep, hall]
    · have hsome : lastSepIdx rest ≠ none :=
        fun hn => hall ((lastSepIdx_eq_none_iff rest).mp hn)
      cases hl : lastSepIdx rest with
      | none => exact absurd hl hsome
      | some i =>
        have hallf : rest.all (fun d => !isSepChar d) = false := by
          cases hx : rest.all (fun d => !isSepChar d)
          · rfl
          · exact absurd hx hall
        simp [hallf]

/-- C4 amended: for a segment (without a pipe character, which the source
regex also treats as a separator) containing a glob metacharacter with at
least one separator before the first one, the path portion is everything
strictly before the nearest separator preceding that metacharacter (the
separator excluded, with a forward slash appended when the path portion
contains no separator at all), and the glob portion is everything after
that separator; a segment with no metacharacter is returned whole with no
glob portion. The original claim said the path portion includes the
separator. -/
theorem c4_amended :
    (∀ (s : String) (gi j : Nat),
      '|' ∉ s.data →
      findGlobIdx s.data = some gi →
      lastSepIdx (s.data.take gi) = some j →
      splitGlobFromPath s =
        (String.mk
          (if (s.data.take j).any isSepChar then s.data.take j else s.data.take j ++ ['/']),
         some (String.mk (s.data.drop (j + 1))))) ∧
    (∀ s : String, findGlobIdx s.data = none → splitGlobFromPath s = (s, none)) := by
  constructor
  · intro s gi j hpipe hgi hj
    have hpipe2 : '|' ∉ s.data.take gi := fun hm => hpipe (List.take_subset gi s.data hm)
    simp only [splitGlobFromPath, hgi, regexSepMatchIdx_eq_lastSepIdx _ hpipe2, hj]
  · intro s hgi
    simp only [splitGlobFromPath, hgi]

/-- C4 amended witness: both conjuncts applied at concrete segments. -/
theorem c4_amended_witness :
    ('|' ∉ "/a/b*".data ∧ findGlobIdx "/a/b*".data = some 4 ∧
      lastSepIdx ("/a/b*".data.take 4) = some 2 ∧
      splitGlobFromPath "/a/b*" =
        (String.mk
          (if ("/a/b*".data.take 2).any isSepChar
           then "/a/b*".data.take 2 else "/a/b*".data.take 2 ++ ['/']),
         some (String.mk ("/a/b*".data.drop 3)))) ∧
    (findGlobIdx "/ab".data = none ∧ splitGlobFromPath "/ab" = ("/ab", none)) :=
  ⟨⟨by decide, by decide, by decide,
    c4_amended.1 "/a/b*" 4 2 (by decide) (by decide) (by decide)⟩,
   ⟨by decide, c4_amended.2 "/ab" (by decide)⟩⟩

/-- Data of an appended string is the appended data. -/
theorem stringDataAppend (a b : String) : (a ++ b).data = a.data ++ b.data := by
  cases a
  cases b
  rfl

/-- If the doubled-globstar pattern never occurs in the list, the replace
pass is the identity. -/
theorem c6_noop (l : List Char) (h : ¬ ['*', '*', '/', '*', '*'] <:+: l) :
    replaceStarStar l = l := by
  induction l using replaceStarStar.induct with
  | case1 rest ih =>
    exact absurd ⟨[], rest, by simp⟩ h
  | case2 c rest hne ih =>
    rw [replaceStarStar.eq_2 c rest hne]
    rw [ih (fun hinf => h (by obtain ⟨s, t, hst⟩ := hinf; exact ⟨c :: s, t, by simp [hst]⟩))]
  | case3 => rfl

/-- Decomposition of an occurrence of the doubled-globstar pattern in a
list beginning with star star slash: either the occurrence starts at the
front (so the remainder begins with two stars) or it lies wholly past the
three leading characters. -/
theorem c6_aux1 (s t q : List Char)
    (heq : s ++ ['*', '*', '/', '*', '*'] ++ t = '*' :: '*' :: '/' :: q) :
    (∃ t2, q = '*' :: '*' :: t2) ∨ (∃ s3, s3 ++ ['*', '*', '/', '*', '*'] ++ t = q) := by
  rcases s with _ | ⟨a, _ | ⟨b, _ | ⟨c, s3⟩⟩⟩
  · left
    simp only [List.nil_append, List.cons_append] at heq
    injection heq with h1 heq
    injection heq with h2 heq
    injection heq with h3 heq
    exact ⟨t, heq.symm⟩
  · simp only [List.cons_append, List.nil_append] at heq
    injection heq with h1 heq
    injection heq with h2 heq
    injection heq with h3 heq
    exact absurd h3 (by decide)
  · simp only [List.cons_append, List.nil_append] at heq
    injection heq with h1 heq
    injection heq with h2 heq
    injection heq with h3 heq
    exact absurd h3 (by decide)
  · right
    simp only [List.cons_append] at heq
    injection heq with h1 heq
    injection heq with h2 heq
    injection heq with h3 heq
    exact ⟨s3, heq⟩

/-- A doubled-globstar occurrence in star star slash q forces a double
star inside q. -/
theorem c6_aux3 (q : List Char)
    (h : ['*', '*', '/', '*', '*'] <:+: ('*' :: '*' :: '/' :: q)) :
    ['*', '*'] <:+: q := by
  obtain ⟨s, t, heq⟩ := h
  rcases c6_aux1 s t q heq with ⟨t2, rfl⟩ | ⟨s3, heq3⟩
  · exact ⟨[], t2, rfl⟩
  · exact ⟨s3, '/' :: '*' :: '*' :: t, by rw [← heq3]; simp⟩

/-- A double star inside the reversal is a double star inside the list. -/
theorem c6_rev (q : List Char) (h : ['*', '*'] <:+: q.reverse) : ['*', '*'] <:+: q := by
  obtain ⟨u, v, huv⟩ := h
  refine ⟨v.reverse, u.reverse, ?_⟩
  have h2 := congrArg List.reverse huv
  simpa [List.reverse_append] using h2

/-- A doubled-globstar occurrence in star star slash q slash star star
forces a double star inside q. -/
theorem c6_aux2 (q : List Char)
    (h : ['*', '*', '/', '*', '*'] <:+: ('*' :: '*' :: '/' :: (q ++ ['/', '*', '*']))) :
    ['*', '*'] <:+: q := by
  obtain ⟨s, t, heq⟩ := h
  rcases c6_aux1 s t _ heq with ⟨t2, ht2⟩ | ⟨s3, heq3⟩
  · rcases q with _ | ⟨p0, _ | ⟨p1, prest⟩⟩
    · simp only [List.nil_append] at ht2
      injection ht2 with hx _
      exact absurd hx (by decide)
    · simp only [List.cons_append, List.nil_append] at ht2
      injection ht2 with hx ht2
      injection ht2 with hy _
      exact absurd hy (by decide)
    · simp only [List.cons_append] at ht2
      injection ht2 with hx ht2
      injection ht2 with hy _
      subst hx
      subst hy
      exact ⟨[], prest, rfl⟩
  · have hrev : t.reverse ++ ['*', '*', '/', '*', '*'] ++ s3.reverse =
        '*' :: '*' :: '/' :: q.reverse := by
      have h2 := congrArg List.reverse heq3
      simpa [List.reverse_append] using h2
    rcases c6_aux1 t.reverse s3.reverse q.reverse hrev with ⟨t2, ht2⟩ | ⟨s4, heq4⟩
    · refine c6_rev q ?_
      rw [ht2]
      exact ⟨[], t2, rfl⟩
    · refine c6_rev q ?_
      rw [← heq4]
      exact ⟨s4, '/' :: '*' :: '*' :: s3.reverse, by simp⟩

/-- C6 amended: the two concrete expansions are as claimed, and for every
input that does not itself contain a double star no output contains the
doubled-globstar substring; inputs containing a double star can defeat the
single-pass collapse (see the counterexample on the bare double star). -/
theorem c6_amended :
    expandGlobalGlob "foo" = ["**/foo/**", "**/foo"] ∧
    expandGlobalGlob "**/bar" = ["**/bar/**", "**/bar"] ∧
    (∀ p : String, ¬ (['*', '*'] <:+: p.data) →
      ∀ out ∈ expandGlobalGlob p, ¬ (['*', '*', '/', '*', '*'] <:+: out.data)) := by
  refine ⟨by decide, by decide, ?_⟩
  intro p hp out hmem
  have hd1 : ("**/" ++ p ++ "/**").data = '*' :: '*' :: '/' :: (p.data ++ ['/', '*', '*']) := by
    simp only [stringDataAppend]
    rfl
  have hd2 : ("**/" ++ p).data = '*' :: '*' :: '/' :: p.data := by
    simp only [stringDataAppend]
    rfl
  simp only [expandGlobalGlob, List.mem_cons, List.not_mem_nil, or_false] at hmem
  rcases hmem with rfl | rfl
  · have hno : ¬ ['*', '*', '/', '*', '*'] <:+: ("**/" ++ p ++ "/**").data := by
      rw [hd1]
      exact fun h => hp (c6_aux2 p.data h)
    have hrepl : replaceStarStar ("**/" ++ p ++ "/**").data = ("**/" ++ p ++ "/**").data :=
      c6_noop _ hno
    show ¬ ['*', '*', '/', '*', '*'] <:+: (replaceStarStar ("**/" ++ p ++ "/**").data)
    rw [hrepl]
    exact hno
  · have hno : ¬ ['*', '*', '/', '*', '*'] <:+: ("**/" ++ p).data := by
      rw [hd2]
      exact fun h => hp (c6_aux3 p.data h)
    have hrepl : replaceStarStar ("**/" ++ p).data = ("**/" ++ p).data :=
      c6_noop _ hno
    show ¬ ['*', '*', '/', '*', '*'] <:+: (replaceStarStar ("**/" ++ p).data)
    rw [hrepl]
    exact hno

/-- C6 amended witness: the universally quantified conjunct applied at a
double-star-free input. -/
theorem c6_amended_witness :
    (¬ (['*', '*'] <:+: "foo".data)) ∧
    (∀ out ∈ expandGlobalGlob "foo", ¬ (['*', '*', '/', '*', '*'] <:+: out.data)) :=
  ⟨by decide, c6_amended.2.2 "foo" (by decide)⟩

/-- An expression owning a key is nonempty. -/
theorem exprHasKey_ne_nil (e : IExpression) (k : String) (h : exprHasKey e k = true) :
    e ≠ [] := by
  intro hc
  subst hc
  simp [exprHasKey] at h

/-- The rebasing fold of getAbsoluteIExpression preserves keys of the
accumulator. -/
theorem getAbsFold_hasKey_mono (ep : IExpression) (root kk : String) :
    ∀ acc : IExpression, exprHasKey acc kk = true →
      exprHasKey (ep.foldl (fun absExpr kv =>
        if kv.2 && !isAbsolutePath kv.1 then exprSet absExpr (pathsJoin root kv.1) kv.2
        else absExpr) acc) kk = true := by
  induction ep with
  | nil => exact fun acc h => h
  | cons kv rest ih =>
    intro acc h
    rw [List.foldl_cons]
    apply ih
    split
    · exact (exprSet_hasKey_iff _ _ _ _).mpr (Or.inl h)
    · exact h

/-- The rebasing fold introduces the rebased key of every truthy
non-absolute entry. -/
theorem getAbsFold_hasKey (ep : IExpression) (root k : String)
    (habs : isAbsolutePath k = false) :
    ∀ acc : IExpression, (k, true) ∈ ep →
      exprHasKey (ep.foldl (fun absExpr kv =>
        if kv.2 && !isAbsolutePath kv.1 then exprSet absExpr (pathsJoin root kv.1) kv.2
        else absExpr) acc) (pathsJoin root k) = true := by
  induction ep with
  | nil =>
    intro acc hk
    exact absurd hk (List.not_mem_nil _)
  | cons kv rest ih =>
    intro acc hk
    rw [List.foldl_cons]
    rcases List.mem_cons.mp hk with heq | hmem
    · apply getAbsFold_hasKey_mono
      rw [← heq]
      simp only [habs]
      simp [exprSet_hasKey_iff]
    · exact ih _ hmem

/-- getAbsoluteIExpression keeps (rebased) every truthy non-absolute key. -/
theorem getAbs_hasKey (ep : IExpression) (root k : String)
    (hk : (k, true) ∈ ep) (habs : isAbsolutePath k = false) :
    exprHasKey (getAbsoluteIExpression ep root) (pathsJoin root k) = true :=
  getAbsFold_hasKey ep root k habs [] hk

/-- All values produced by the rebasing fold are true. -/
theorem getAbsFold_allTrue (ep : IExpression) (root : String) :
    ∀ acc : IExpression, (∀ kv ∈ acc, kv.2 = true) →
      ∀ kv ∈ ep.foldl (fun absExpr kv =>
        if kv.2 && !isAbsolutePath kv.1 then exprSet absExpr (pathsJoin root kv.1) kv.2
        else absExpr) acc, kv.2 = true := by
  induction ep with
  | nil => exact fun acc hacc => hacc
  | cons kv rest ih =>
    intro acc hacc
    rw [List.foldl_cons]
    apply ih
    split
    · next hcond =>
      rw [Bool.and_eq_true] at hcond
      exact allTrue_exprSet acc _ _ hacc hcond.1
    · exact hacc

/-- The merge fold of mergeExcludesFromFolderQueries preserves keys of the
accumulator. -/
theorem mergeFold_hasKey_mono (fqs : List FolderQuery) (kk : String) :
    ∀ m : IExpression, exprHasKey m kk = true →
      exprHasKey (fqs.foldl (fun m fq =>
        match fq.excludePattern with
        | some ep => mixin m (getAbsoluteIExpression ep fq.folder.fsPath)
        | none => m) m) kk = true := by
  induction fqs with
  | nil => exact fun m h => h
  | cons fq rest ih =>
    intro m h
    rw [List.foldl_cons]
    apply ih
    cases hfq : fq.excludePattern with
    | none => exact h
    | some ep => exact (mixin_hasKey_iff _ _ _).mpr (Or.inl h)

/-- The merge fold carries the rebased key of a member folder query whose
exclude pattern owns it. -/
theorem mergeFold_hasKey (fqs : List FolderQuery) (fq0 : FolderQuery) (ep : IExpression)
    (kk : String) (hfq : fq0.excludePattern = some ep)
    (hkey : exprHasKey (getAbsoluteIExpression ep fq0.folder.fsPath) kk = true) :
    ∀ m : IExpression, fq0 ∈ fqs →
      exprHasKey (fqs.foldl (fun m fq =>
        match fq.excludePattern with
        | some ep => mixin m (getAbsoluteIExpression ep fq.folder.fsPath)
        | none => m) m) kk = true := by
  induction fqs with
  | nil =>
    intro m hm
    exact absurd hm (List.not_mem_nil _)
  | cons fq rest ih =>
    intro m hm
    rw [List.foldl_cons]
    rcases List.mem_cons.mp hm with rfl | hmem
    · apply mergeFold_hasKey_mono
      rw [hfq]
      exact (mixin_hasKey_iff _ _ _).mpr (Or.inr hkey)
    · exact ih _ hmem

/-- All values produced by the merge fold are true when the accumulator
values are. -/
theorem mergeFold_allTrue (fqs : List FolderQuery) :
    ∀ m : IExpression, (∀ kv ∈ m, kv.2 = true) →
      ∀ kv ∈ fqs.foldl (fun m fq =>
        match fq.excludePattern with
        | some ep => mixin m (getAbsoluteIExpression ep fq.folder.fsPath)
        | none => m) m, kv.2 = true := by
  induction fqs with
  | nil => exact fun m hm => hm
  | cons fq rest ih =>
    intro m hm
    rw [List.foldl_cons]
    apply ih
    cases hfq : fq.excludePattern with
    | none => exact hm
    | some ep => exact allTrue_foldl Prod.fst Prod.snd _ m hm (getAbsFold_allTrue ep _ [] (by simp))

/-- mergeExcludesFromFolderQueries is present, carries the rebased key and
has only true values, whenever some member folder query owns a truthy
non-absolute key. -/
theorem mergeExcludes_hasKey (fqs : List FolderQuery) (fq0 : FolderQuery) (ep : IExpression)
    (kk : String) (hmem : fq0 ∈ fqs) (hfq : fq0.excludePattern = some ep)
    (hkey : exprHasKey (getAbsoluteIExpression ep fq0.folder.fsPath) kk = true) :
    ∃ m, mergeExcludesFromFolderQueries fqs = some m ∧ exprHasKey m kk = true ∧
      ∀ kv ∈ m, kv.2 = true := by
  have h1 := mergeFold_hasKey fqs fq0 ep kk hfq hkey [] hmem
  have h2 := mergeFold_allTrue fqs [] (by simp)
  have hne := exprHasKey_ne_nil _ _ h1
  refine ⟨_, ?_, h1, h2⟩
  simp only [mergeExcludesFromFolderQueries]
  rw [if_neg (fun hx => hne (List.isEmpty_iff.mp hx))]

/-- All values of a successful parseExcludePattern result are true. -/
theorem parseExcludePattern_allTrue (env : Env) (p : Option String) (ex0 : Option IExpression)
    (h : parseExcludePattern env p = PResult.ok ex0) :
    ∀ kv ∈ ex0.getD ([] : IExpression), kv.2 = true := by
  cases hps : parseSearchPaths env p with
  | err e =>
    unfold parseExcludePattern at h
    rw [hps] at h
    cases h
  | ok r =>
    have hpe : parseExcludePattern env p =
        PResult.ok (if (expr2 r).isEmpty then none else some (expr2 r)) := by
      unfold parseExcludePattern
      rw [hps]
      rfl
    rw [hpe] at h
    injection h with h
    subst h
    have hall1 : ∀ kv ∈ expr1 r, kv.2 = true := by
      unfold expr1
      cases hrp : r.pattern with
      | none => simp
      | some pp =>
        exact allTrue_foldl Prod.fst Prod.snd pp [] (by simp)
          (parseSearchPaths_pattern_allTrue env p r pp hps hrp)
    have hall2 : ∀ kv ∈ expr2 r, kv.2 = true := by
      unfold expr2
      cases hrs : r.searchPaths with
      | none => exact hall1
      | some sps => exact allTrue_foldl_spExcl sps (expr1 r) hall1
    split
    · simp
    · simpa using hall2

/-- C2 amended: when the include pattern resolved search-path anchors and
the caller supplied explicit folder resources, the explicit per-folder
queries are replaced by one query per resolved SearchPathPattern, and
every key of an original folder exclude pattern that has a truthy value
and is not already an absolute path is preserved in the final top-level
exclude pattern, rebased under its originating root, with value true; the
original claim also covered absolute and falsy-valued keys, which the
rebasing step drops. -/
theorem c2_amended (env : Env) (frs : List Uri) (opts : CommonOptions)
    (psr : SearchPathsResult) (sps : List SearchPathPattern) (ex0 : Option IExpression)
    (fr : Uri) (k : String)
    (h1 : parseSearchPaths env opts.includePattern = PResult.ok psr)
    (h2 : psr.searchPaths = some sps)
    (h3 : parseExcludePattern env opts.excludePattern = PResult.ok ex0)
    (h4 : fr ∈ frs)
    (h5 : (k, true) ∈ (getFolderQueryForRoot env fr opts).excludePattern.getD [])
    (h6 : isAbsolutePath k = false) :
    ∃ props, commonQuery env (some frs) opts = PResult.ok props ∧
      props.folderQueries = sps.map (fun sp => getFolderQueryForSearchPath env sp) ∧
      ∃ e, props.excludePattern = some e ∧
        exprHasKey e (pathsJoin fr.fsPath k) = true ∧ ∀ kv ∈ e, kv.2 = true := by
  cases hfqex : (getFolderQueryForRoot env fr opts).excludePattern with
  | none =>
    rw [hfqex] at h5
    simp at h5
  | some ep =>
    rw [hfqex] at h5
    simp only [Option.getD_some] at h5
    have hkey : exprHasKey
        (getAbsoluteIExpression ep (getFolderQueryForRoot env fr opts).folder.fsPath)
        (pathsJoin fr.fsPath k) = true :=
      getAbs_hasKey ep fr.fsPath k h5 h6
    have hmemfq : getFolderQueryForRoot env fr opts ∈
        frs.map (fun u => getFolderQueryForRoot env u opts) :=
      List.mem_map_of_mem _ h4
    obtain ⟨merged, hmerge, hmkey, hmall⟩ :=
      mergeExcludes_hasKey (frs.map (fun u => getFolderQueryForRoot env u opts))
        (getFolderQueryForRoot env fr opts) ep (pathsJoin fr.fsPath k) hmemfq hfqex hkey
    have hex0all := parseExcludePattern_allTrue env opts.excludePattern ex0 h3
    simp only [commonQuery, h1, h3, h2, Option.map_some', Option.some_bind, hmerge]
    refine ⟨_, rfl, ?_, ?_⟩
    · rfl
    · refine ⟨mixin (ex0.getD []) merged, rfl, ?_, ?_⟩
      · exact (mixin_hasKey_iff _ _ _).mpr (Or.inr hmkey)
      · exact allTrue_foldl Prod.fst Prod.snd merged (ex0.getD []) hex0all hmall

/-- C2 amended witness: a folder with a relative truthy exclude key nm and
an absolute include anchor; the key survives rebased to the root. -/
theorem c2_amended_witness :
    (parseSearchPaths fixRelExcludeEnv (some "/x") =
        PResult.ok { searchPaths := some [⟨⟨"/x"⟩, none⟩], pattern := none } ∧
      ({ searchPaths := some [⟨⟨"/x"⟩, none⟩],
         pattern := none } : SearchPathsResult).searchPaths = some [⟨⟨"/x"⟩, none⟩] ∧
      parseExcludePattern fixRelExcludeEnv none = PResult.ok none ∧
      (⟨"/w"⟩ : Uri) ∈ [(⟨"/w"⟩ : Uri)] ∧
      ("nm", true) ∈ (getFolderQueryForRoot fixRelExcludeEnv ⟨"/w"⟩
        { includePattern := some "/x" }).excludePattern.getD [] ∧
      isAbsolutePath "nm" = false) ∧
    (∃ props, commonQuery fixRelExcludeEnv (some [⟨"/w"⟩]) { includePattern := some "/x" } =
        PResult.ok props ∧
      props.folderQueries =
        [⟨⟨"/x"⟩, none⟩].map (fun sp => getFolderQueryForSearchPath fixRelExcludeEnv sp) ∧
      ∃ e, props.excludePattern = some e ∧
        exprHasKey e (pathsJoin (Uri.fsPath ⟨"/w"⟩) "nm") = true ∧ ∀ kv ∈ e, kv.2 = true) :=
  ⟨⟨by decide, rfl, by decide, by decide, by decide, by decide⟩,
   c2_amended fixRelExcludeEnv [⟨"/w"⟩] { includePattern := some "/x" }
     { searchPaths := some [⟨⟨"/x"⟩, none⟩], pattern := none } [⟨⟨"/x"⟩, none⟩] none ⟨"/w"⟩ "nm"
     (by decide) rfl (by decide) (by decide) (by decide) (by decide)⟩
